import Mathlib

set_option maxRecDepth 4000
set_option linter.unnecessarySeqFocus false

-- The rational operations of the library are `@[irreducible]`, which blocks
-- elaborator-side evaluation of concrete model runs; re-enable unfolding so
-- `decide` can evaluate them (the kernel ignores reducibility attributes).
attribute [local semireducible] Rat.mul Rat.add Rat.inv Rat.sub Rat.ofScientific

/-!
Verification of the reconciliation-and-execution core of the product
comparison pipeline: string similarity and matching (reconciler),
conflict detection, comparison-table building, catalog result formatting
(rag_search), price-window filtering (executor), the sliding-window rate
limiter and the TTL cache.  Machine integers and floats of the source are
modelled as `Nat`/`Int`/`Rat`; Python truthiness of numbers is modelled
explicitly (`x ≠ 0`); fallible parsing returns `Option`.
-/

namespace PipelineModel

/-! ### Python string primitives (ASCII), modelled over `List Char` -/

/-- Python `str.lower()` on ASCII strings. -/
def pyLower (s : String) : String := String.mk (s.data.map Char.toLower)

/-- Drop whitespace from both ends, Python `str.strip()`. -/
def stripChars (cs : List Char) : List Char :=
  ((cs.dropWhile Char.isWhitespace).reverse.dropWhile Char.isWhitespace).reverse

/-- Python `str.strip()`. -/
def pyStrip (s : String) : String := String.mk (stripChars s.data)

/-- Left-to-right, non-overlapping replacement of a non-empty pattern,
Python `str.replace(pat, rep)`.  The fuel is the string length; each step
consumes at least one character, so the fuel never runs out. -/
def replaceFuel : ℕ → List Char → List Char → List Char → List Char
  | 0, s, _, _ => s
  | fuel + 1, s, pat, rep =>
    match s with
    | [] => []
    | c :: rest =>
      if pat.isPrefixOf s then rep ++ replaceFuel fuel (s.drop pat.length) pat rep
      else c :: replaceFuel fuel rest pat rep

/-- Python `str.replace`. -/
def pyReplace (s pat rep : String) : String :=
  String.mk (replaceFuel s.data.length s.data pat.data rep.data)

/-- Split on whitespace runs discarding empties, Python `str.split()`. -/
def wordsAux : List Char → List Char → List (List Char)
  | [], acc => if acc.isEmpty then [] else [acc.reverse]
  | c :: rest, acc =>
    if c.isWhitespace then
      (if acc.isEmpty then wordsAux rest [] else acc.reverse :: wordsAux rest [])
    else wordsAux rest (c :: acc)

/-- Python `str.split()` (no separator argument). -/
def pySplit (s : String) : List String := (wordsAux s.data []).map String.mk

/-- Python substring test `needle in hay` (for non-empty needles). -/
def isSubstring (needle hay : List Char) : Bool :=
  (List.range (hay.length + 1)).any (fun i => needle.isPrefixOf (hay.drop i))

/-! ### `difflib.SequenceMatcher` ratio

`ratio` is `2*M/T` where `T` is the total length of the two sequences and
`M` the total size of the matching blocks: recursively, the longest
common contiguous block (ties resolved to the earliest start in `a`, then
in `b`), then the blocks of the pieces to its left and to its right. -/

/-- Length of the common prefix of two character lists. -/
def commonRun : List Char → List Char → ℕ
  | a :: as1, b :: bs1 => if a = b then commonRun as1 bs1 + 1 else 0
  | _, _ => 0

/-- Length of the matching run starting at positions `i` of `a` and `j` of `b`. -/
def runAt (a b : List Char) (i j : ℕ) : ℕ := commonRun (a.drop i) (b.drop j)

/-- `find_longest_match`: the triple `(i, j, k)` of the longest matching
block, preferring the earliest start in `a`, then the earliest in `b`;
`(0, 0, 0)` when there is no match. -/
def longestMatchBlock (a b : List Char) : ℕ × ℕ × ℕ :=
  (List.range a.length).foldl (fun best i =>
    (List.range b.length).foldl (fun best j =>
      let k := runAt a b i j
      if best.2.2 < k then (i, j, k) else best) best) (0, 0, 0)

/-- Total size of the matching blocks (`get_matching_blocks` summed).
The fuel bounds the recursion depth; `a.length + 1` always suffices since
each recursive call strictly shrinks the first sequence. -/
def matchingTotal : ℕ → List Char → List Char → ℕ
  | 0, _, _ => 0
  | fuel + 1, a, b =>
    let t := longestMatchBlock a b
    if t.2.2 = 0 then 0
    else
      matchingTotal fuel (a.take t.1) (b.take t.2.1) + t.2.2 +
        matchingTotal fuel (a.drop (t.1 + t.2.2)) (b.drop (t.2.1 + t.2.2))

/-- Total matching-block size of two character lists. -/
def matchSum (a b : List Char) : ℕ := matchingTotal (a.length + 1) a b

/-- `SequenceMatcher.ratio()`: `2*M/T`, and `1` when both sequences are
empty (`_calculate_ratio`). -/
def ratio (a b : List Char) : ℚ :=
  let total := a.length + b.length
  if total = 0 then 1 else (2 * matchSum a b : ℚ) / total

/-- `_similarity`: 0 when either string is empty, else the ratio of the
lowercased strings. -/
def similarity (a b : String) : ℚ :=
  if a.isEmpty || b.isEmpty then 0
  else ratio (a.data.map Char.toLower) (b.data.map Char.toLower)

/-! ### Numeric helpers: price parsing and `round` -/

/-- Numeric value of a list of decimal digit characters (empty = 0). -/
def digitsToNat (ds : List Char) : ℕ := ds.foldl (fun n c => n * 10 + (c.toNat - 48)) 0

/-- Parse the digit/dot characters kept by `re.sub(r'[^\d.]', '', s)` the
way Python `float()` does: at most one dot, at least one digit. -/
def parseDigitsDot (cs : List Char) : Option ℚ :=
  if cs.isEmpty then none
  else if cs.count '.' = 0 then some (digitsToNat cs)
  else if 2 ≤ cs.count '.' then none
  else
    let ip := cs.takeWhile (fun c => c ≠ '.')
    let fp := (cs.dropWhile (fun c => c ≠ '.')).drop 1
    if ip.isEmpty && fp.isEmpty then none
    else some ((digitsToNat ip : ℚ) + (digitsToNat fp : ℚ) / (10 : ℚ) ^ fp.length)

/-- `_extract_price`: `None` for a missing or falsy string, else strip all
characters but digits and dots and parse as a float. -/
def extract_price (price_str : Option String) : Option ℚ :=
  match price_str with
  | none => none
  | some s =>
    if s.isEmpty then none
    else parseDigitsDot (s.data.filter (fun c => c.isDigit || c == '.'))

/-- Round to the nearest integer, ties to even (Python `round`). -/
def roundHalfEven (q : ℚ) : ℤ :=
  let f := ⌊q⌋
  let r := q - f
  if r < 1 / 2 then f
  else if 1 / 2 < r then f + 1
  else if f % 2 = 0 then f else f + 1

/-- Python `round(q, n)` (on exact rationals). -/
def roundTo (n : ℕ) (q : ℚ) : ℚ := (roundHalfEven (q * 10 ^ n) : ℚ) / 10 ^ n

/-! ### Data model -/

/-- A catalog product (`Product` of the MCP schema / RAG result dict).
The brand of a record whose brand is missing is the empty string. -/
structure CatalogProduct where
  doc_id : String
  title : String
  brand : String
  price : Option ℚ
  main_category : String
  eco_friendly : Bool
  image_url : String
  product_url : String
  relevance_score : ℚ
deriving DecidableEq

/-- A web listing (result dict of the `web.search` tool). -/
structure WebListing where
  title : String
  url : String
  snippet : String
  price : Option String
  source : String
  rating : Option ℚ
  reviews : Option ℕ
  thumbnail : Option String
deriving DecidableEq

/-- The dict returned by `_find_best_match_for_product` (still carrying
`web_idx`, which `_match_products` pops before appending). -/
structure BestMatch where
  rag_product : CatalogProduct
  web_product : WebListing
  web_idx : ℕ
  similarity_score : ℚ
  match_type : String
deriving DecidableEq

/-- A matched pair as stored in `matched_pairs` (after `web_idx` is popped). -/
structure MatchedPair where
  rag_product : CatalogProduct
  web_product : WebListing
  similarity_score : ℚ
  match_type : String
deriving DecidableEq

/-- Forget the claimed web index. -/
def BestMatch.toPair (b : BestMatch) : MatchedPair :=
  { rag_product := b.rag_product, web_product := b.web_product,
    similarity_score := b.similarity_score, match_type := b.match_type }

/-! ### Matcher (`reconciler._find_best_match_for_product`) -/

/-- Stopword list of `_normalize_title`. -/
def titleStopwords : List String := ["the", "a", "an", "for", "with", "and", "or"]

/-- `_normalize_brand`: lowercase, strip, drop common company suffixes. -/
def normalize_brand (brand : String) : String :=
  if brand.isEmpty then ""
  else
    (["inc", "llc", "corp", "company", "co"]).foldl
      (fun n word => pyReplace (pyReplace n (" " ++ word) "") ("." ++ word) "")
      (pyStrip (pyLower brand))

/-- `_normalize_title`: lowercase, strip, drop stopwords, re-join. -/
def normalize_title (title : String) : String :=
  if title.isEmpty then ""
  else
    String.intercalate " "
      ((pySplit (pyStrip (pyLower title))).filter (fun w => !titleStopwords.contains w))

/-- Composite score of one web candidate against a (normalized) catalog
brand and title: `0.4 * brand_sim + 0.6 * title_sim`, plus a `0.2` bonus
capped at `1.0` when the brand occurs in the lowercased snippet. -/
def combined_score (rag_brand rag_title : String) (w : WebListing) : ℚ :=
  let web_title := normalize_title w.title
  let web_snippet := pyLower w.snippet
  let web_brand_candidates := String.intercalate " " ((pySplit web_title).take 3)
  let brand_sim := if rag_brand.isEmpty then 0 else similarity rag_brand web_brand_candidates
  let title_sim := similarity rag_title web_title
  let c := brand_sim * (2 / 5) + title_sim * (3 / 5)
  if !rag_brand.isEmpty && isSubstring rag_brand.data web_snippet.data then
    min (c + 1 / 5) 1
  else c

/-- One iteration of the candidate scan: skip claimed indices, accept a
candidate only when its score beats the best so far and the `0.5`
threshold. -/
def match_candidate_step (rag_brand rag_title : String) (used_indices : List ℕ)
    (st : ℚ × Option (ℕ × WebListing)) (iw : ℕ × WebListing) : ℚ × Option (ℕ × WebListing) :=
  if used_indices.contains iw.1 then st
  else
    let c := combined_score rag_brand rag_title iw.2
    if st.1 < c ∧ 1 / 2 < c then (c, some iw) else st

/-- `_find_best_match_for_product`: scan the not-yet-claimed listings,
keep the highest score that is also above the `0.5` acceptance threshold,
store the score rounded to 3 decimals and a tag from the `0.7` threshold. -/
def find_best_match_for_product (rag_product : CatalogProduct)
    (web_results : List WebListing) (used_indices : List ℕ) : Option BestMatch :=
  let rag_brand := normalize_brand rag_product.brand
  let rag_title := normalize_title rag_product.title
  let st := web_results.enum.foldl (match_candidate_step rag_brand rag_title used_indices) (0, none)
  match st.2 with
  | some iw =>
    some { rag_product := rag_product, web_product := iw.2, web_idx := iw.1,
           similarity_score := roundTo 3 st.1,
           match_type := if 7 / 10 < st.1 then "brand_title" else "partial" }
  | none => none

/-- `_match_products` under the fully serialized schedule: each product's
scan sees every previously recorded claim (results collected in
submission order). -/
def match_products_serial (rag_results : List CatalogProduct)
    (web_results : List WebListing) : List MatchedPair :=
  (rag_results.foldl
    (fun (st : List ℕ × List MatchedPair) p =>
      match find_best_match_for_product p web_results st.1 with
      | some b => (b.web_idx :: st.1, st.2 ++ [b.toPair])
      | none => st)
    ([], [])).2

/-- `_match_products` under the maximally concurrent schedule: all tasks
are submitted before any result is collected (as the implementation does),
so every scan can observe the initial, empty `used_web_indices` set; the
collection loop then appends every returned match. -/
def match_products_unsynced (rag_results : List CatalogProduct)
    (web_results : List WebListing) : List MatchedPair :=
  rag_results.filterMap (fun p => (find_best_match_for_product p web_results []).map BestMatch.toPair)

/-! ### Conflict detector (`reconciler._detect_conflicts`) -/

/-- One discrepancy record of a conflict. -/
structure PriceDiscrepancy where
  dtype : String
  rag_price : ℚ
  web_price : ℚ
  difference : ℚ
  difference_pct : ℚ
  message : String
deriving DecidableEq

/-- A conflict entry. -/
structure ConflictRecord where
  rag_product_id : String
  rag_title : String
  web_url : String
  web_title : String
  conflicts : List PriceDiscrepancy
deriving DecidableEq

/-- Fixed-point decimal rendering of a rational (Python `f"{x:.nf}"`,
idealized to exact decimal rounding). -/
def qToFixed (n : ℕ) (q : ℚ) : String :=
  let m := roundHalfEven (q * 10 ^ n)
  let sign := if m < 0 then "-" else ""
  let ip := m.natAbs / 10 ^ n
  let fpDigits := Nat.repr (m.natAbs % 10 ^ n)
  let pad := String.mk (List.replicate (n - fpDigits.length) '0')
  if n = 0 then sign ++ Nat.repr ip
  else sign ++ Nat.repr ip ++ "." ++ pad ++ fpDigits

/-- The price-discrepancy list of one pair: empty unless both prices are
truthy (present and non-zero) and the difference clears one of the two
thresholds (`> 20` percent relative to the catalog price, or `> 5.0`). -/
def pair_price_conflicts (pair : MatchedPair) : List PriceDiscrepancy :=
  match pair.rag_product.price, extract_price pair.web_product.price with
  | some rag_price, some web_price =>
    if rag_price ≠ 0 ∧ web_price ≠ 0 then
      let price_diff := |rag_price - web_price|
      let price_diff_pct := if 0 < rag_price then price_diff / rag_price * 100 else 0
      if 20 < price_diff_pct ∨ 5 < price_diff then
        [{ dtype := "price_discrepancy", rag_price := rag_price, web_price := web_price,
           difference := roundTo 2 price_diff, difference_pct := roundTo 1 price_diff_pct,
           message := "Catalog shows $" ++ qToFixed 2 rag_price ++ ", web shows $" ++
             qToFixed 2 web_price ++ " (" ++ qToFixed 1 price_diff_pct ++ "% difference)" }]
      else []
    else []
  | _, _ => []

/-- `_detect_conflicts`: one conflict entry per pair whose discrepancy
list is non-empty. -/
def detect_conflicts (matched_pairs : List MatchedPair) : List ConflictRecord :=
  matched_pairs.foldl
    (fun conflicts pair =>
      let conflict : ConflictRecord :=
        { rag_product_id := pair.rag_product.doc_id, rag_title := pair.rag_product.title,
          web_url := pair.web_product.url, web_title := pair.web_product.title,
          conflicts := pair_price_conflicts pair }
      if conflict.conflicts.isEmpty then conflicts else conflicts ++ [conflict])
    []

/-! ### Comparison builder (`reconciler._create_comparison_table`) -/

/-- A row of the unified comparison table. -/
structure ComparisonRow where
  title : String
  brand : Option String
  catalog_price : Option ℚ
  web_price : Option ℚ
  catalog_id : Option String
  web_url : Option String
  web_source : Option String
  image_url : Option String
  product_url : Option String
  eco_friendly : Option Bool
  rating : Option ℚ
  reviews : Option ℕ
  match_confidence : Option ℚ
  has_conflict : Bool
  sources : List String
  rowType : String
deriving DecidableEq

/-- The `matched` row of one pair. -/
def matched_row (pair : MatchedPair) : ComparisonRow :=
  { title := pair.rag_product.title, brand := some pair.rag_product.brand,
    catalog_price := pair.rag_product.price,
    web_price := extract_price pair.web_product.price,
    catalog_id := some pair.rag_product.doc_id,
    web_url := some pair.web_product.url,
    web_source := some pair.web_product.source,
    image_url := some pair.rag_product.image_url,
    product_url := some pair.rag_product.product_url,
    eco_friendly := some pair.rag_product.eco_friendly,
    rating := pair.web_product.rating, reviews := pair.web_product.reviews,
    match_confidence := some pair.similarity_score,
    has_conflict := !((detect_conflicts [pair]).filter (fun c => !c.conflicts.isEmpty)).isEmpty,
    sources := ["catalog", "web"], rowType := "matched" }

/-- The `catalog_only` row of an unmatched catalog product. -/
def catalog_only_row (r : CatalogProduct) : ComparisonRow :=
  { title := r.title, brand := some r.brand, catalog_price := r.price, web_price := none,
    catalog_id := some r.doc_id, web_url := none, web_source := none,
    image_url := some r.image_url, product_url := some r.product_url,
    eco_friendly := some r.eco_friendly, rating := none, reviews := none,
    match_confidence := none, has_conflict := false,
    sources := ["catalog"], rowType := "catalog_only" }

/-- The `web_only` row of an unmatched web listing (web thumbnail used). -/
def web_only_row (w : WebListing) : ComparisonRow :=
  { title := w.title, brand := none, catalog_price := none,
    web_price := extract_price w.price, catalog_id := none,
    web_url := some w.url, web_source := some w.source,
    image_url := w.thumbnail, product_url := some w.url, eco_friendly := none,
    rating := w.rating, reviews := w.reviews, match_confidence := none,
    has_conflict := false, sources := ["web"], rowType := "web_only" }

/-- `_create_comparison_table`: matched rows, then catalog products whose
`doc_id` is in no pair, then web listings whose `url` is in no pair. -/
def create_comparison_table (rag_results : List CatalogProduct)
    (web_results : List WebListing) (matched_pairs : List MatchedPair) : List ComparisonRow :=
  let matched_rag_ids := matched_pairs.map (fun pair => pair.rag_product.doc_id)
  let matched_web_urls := matched_pairs.map (fun pair => pair.web_product.url)
  matched_pairs.map matched_row ++
    (rag_results.filter (fun r => !matched_rag_ids.contains r.doc_id)).map catalog_only_row ++
    (web_results.filter (fun w => !matched_web_urls.contains w.url)).map web_only_row

/-! ### Catalog retrieval adapter (`rag_search.RagSearchTool._format_results`) -/

/-- A raw vector-store candidate: metadata plus its query distance. -/
structure RagCandidate where
  doc_id : String
  title : String
  price : ℚ
  main_category : String
  eco_friendly : Bool
  brand : String
  image_url : String
  product_url : String
  distance : ℚ
deriving DecidableEq

/-- `SOFT_THRESHOLD = 1.1`: above it a kept candidate counts as low confidence. -/
def SOFT_THRESHOLD : ℚ := 11 / 10

/-- `HARD_THRESHOLD = 1.3`: above it a candidate is dropped outright. -/
def HARD_THRESHOLD : ℚ := 13 / 10

/-- Build the returned `Product` from a candidate (`relevance_score = round(1 - distance, 4)`). -/
def rag_product_of (c : RagCandidate) : CatalogProduct :=
  { doc_id := c.doc_id, title := c.title, brand := c.brand, price := some c.price,
    main_category := c.main_category, eco_friendly := c.eco_friendly,
    image_url := c.image_url, product_url := c.product_url,
    relevance_score := roundTo 4 (1 - c.distance) }

/-- The collection loop of `_format_results`, parameterized by the hard
threshold: skip candidates above it, count kept low-confidence candidates,
stop once `top_k` products are collected (the check runs after the append). -/
def format_results_loop (hard : ℚ) :
    List RagCandidate → ℕ → List CatalogProduct → ℕ → List CatalogProduct × ℕ
  | [], _, products, low_confidence_count => (products.reverse, low_confidence_count)
  | c :: rest, top_k, products, low_confidence_count =>
    if hard < c.distance then format_results_loop hard rest top_k products low_confidence_count
    else
      let low' := if SOFT_THRESHOLD < c.distance then low_confidence_count + 1 else low_confidence_count
      let products' := rag_product_of c :: products
      if top_k ≤ products'.length then (products'.reverse, low')
      else format_results_loop hard rest top_k products' low'

/-- `_format_results` with an explicit hard threshold: run the loop, then
discard everything when every collected candidate was low-confidence. -/
def format_results (hard : ℚ) (cands : List RagCandidate) (top_k : ℕ) : List CatalogProduct :=
  let r := format_results_loop hard cands top_k [] 0
  if !r.1.isEmpty ∧ r.2 = r.1.length then [] else r.1

/-- The candidates that pass the hard filter, in order. -/
def surviving (hard : ℚ) (cands : List RagCandidate) : List RagCandidate :=
  cands.filter (fun c => !decide (hard < c.distance))

/-- The candidates the loop collects before suppression: the first
`top_k` survivors (at least one, because the stop check runs after the
append). -/
def collectedCandidates (hard : ℚ) (cands : List RagCandidate) (top_k : ℕ) : List RagCandidate :=
  (surviving hard cands).take (max top_k 1)

/-! ### Fan-Out executor price-window filter (`executor_node`) -/

/-- Python truthiness of an optional number. -/
def truthyQ : Option ℚ → Bool
  | some x => decide (x ≠ 0)
  | none => false

/-- One iteration of the executor's price filter loop: drop a listing
whose extracted price is not truthy, or which violates a truthy bound. -/
def price_filter_step (price_min price_max : Option ℚ)
    (filtered_results : List WebListing) (result : WebListing) : List WebListing :=
  let price := extract_price result.price
  if truthyQ price then
    let p := price.getD 0
    let passes_filter := true
    let passes_filter :=
      if truthyQ price_max && decide (price_max.getD 0 < p) then false else passes_filter
    let passes_filter :=
      if truthyQ price_min && decide (p < price_min.getD 0) then false else passes_filter
    if passes_filter then filtered_results ++ [result] else filtered_results
  else filtered_results

/-- The executor's price filter: active only when one of the bounds is
truthy; a listing is kept only when its extracted price is truthy and
does not violate a truthy bound. -/
def price_window_filter (price_min price_max : Option ℚ)
    (web_results : List WebListing) : List WebListing :=
  if truthyQ price_max || truthyQ price_min then
    web_results.foldl (price_filter_step price_min price_max) []
  else web_results

/-! ### Rate limiter (`rate_limiter.RateLimiter`) -/

/-- Sliding-window rate limiter state: the call deque, oldest first. -/
structure RateLimiter where
  max_calls : ℕ
  calls : List ℚ
deriving DecidableEq

/-- `is_allowed` at an explicit clock reading: prune timestamps older
than 60 seconds from the front, then compare against the limit; returns
the verdict together with the pruned state. -/
def RateLimiter.is_allowed_at (rl : RateLimiter) (current_time : ℚ) : Bool × RateLimiter :=
  let cutoff_time := current_time - 60
  let pruned := rl.calls.dropWhile (fun t => decide (t < cutoff_time))
  (decide (pruned.length < rl.max_calls), { rl with calls := pruned })

/-- `record_call` at an explicit clock reading. -/
def RateLimiter.record_call_at (rl : RateLimiter) (t : ℚ) : RateLimiter :=
  { rl with calls := rl.calls ++ [t] }

/-! ### TTL cache (`cache.SimpleCache`) -/

/-- TTL cache: the store maps keys to value/expiry pairs. -/
structure SimpleCache (α : Type) where
  ttl : ℚ
  store : String → Option (α × ℚ)

/-- Constructor default `ttl_seconds = 300`. -/
def default_ttl_seconds : ℚ := 300

/-- `get` at an explicit clock reading: value if unexpired, else delete
the entry and report absent; returns the possibly-updated cache. -/
def SimpleCache.get_at {α : Type} (c : SimpleCache α) (key : String) (t : ℚ) :
    Option α × SimpleCache α :=
  match c.store key with
  | some ve =>
    if t < ve.2 then (some ve.1, c)
    else (none, { c with store := fun k => if k = key then none else c.store k })
  | none => (none, c)

/-- `set` at an explicit clock reading: store with expiry `t + ttl`. -/
def SimpleCache.set_at {α : Type} (c : SimpleCache α) (key : String) (value : α) (t : ℚ) :
    SimpleCache α :=
  { c with store := fun k => if k = key then some (value, t + c.ttl) else c.store k }

/-- `clear`: drop every entry. -/
def SimpleCache.clear {α : Type} (c : SimpleCache α) : SimpleCache α :=
  { c with store := fun _ => none }

/-- `clear_expired`: bulk-purge entries whose expiry has passed. -/
def SimpleCache.clear_expired {α : Type} (c : SimpleCache α) (t : ℚ) : SimpleCache α :=
  { c with store := fun k =>
      match c.store k with
      | some ve => if ve.2 ≤ t then none else some ve
      | none => none }

/-! ### Concrete instances used by counterexamples and witnesses -/

/-- Two catalog products sharing one `doc_id` but nothing else. -/
def dup_p1 : CatalogProduct := ⟨"d", "t1", "b1", some 10, "toys", false, "img1", "purl1", 1⟩

/-- Second product with the duplicated `doc_id` and a unique title. -/
def dup_p2 : CatalogProduct := ⟨"d", "t2", "b2", some 12, "toys", false, "img2", "purl2", 1⟩

/-- A web listing matched against `dup_p1`. -/
def dup_w : WebListing := ⟨"tw", "u", "", some "10", "shop", none, none, none⟩

/-- The pair matching `dup_p1` with `dup_w`. -/
def dup_pair : MatchedPair := ⟨dup_p1, dup_w, 3 / 5, "partial"⟩

/-- A brandless catalog product titled `abc`. -/
def abc_product_a : CatalogProduct := ⟨"a", "abc", "", some 10, "toys", false, "imga", "urla", 1⟩

/-- A second brandless catalog product with the same title. -/
def abc_product_b : CatalogProduct := ⟨"b", "abc", "", some 10, "toys", false, "imgb", "urlb", 1⟩

/-- The single web listing both `abc` products match. -/
def abc_listing : WebListing := ⟨"abc", "wu", "", some "10", "shop", none, none, none⟩

/-- The best-match record `abc_product_a` obtains on `[abc_listing]`. -/
def abc_best : BestMatch := ⟨abc_product_a, abc_listing, 0, 3 / 5, "partial"⟩

/-- A matched pair whose catalog price is present but zero while the web
price parses to 100. -/
def zero_price_pair : MatchedPair :=
  ⟨⟨"z", "tz", "bz", some 0, "toys", false, "iz", "pz", 1⟩,
   ⟨"twz", "uz", "", some "100", "shop", none, none, none⟩, 3 / 5, "partial"⟩

/-- Catalog product whose composite score against `round_listing` lands in
`(0.5, 0.5005)`: brand similarity `4/25`, title similarity `8/11`. -/
def round_product : CatalogProduct :=
  ⟨"c4", "yyyyq", "xxppppppppppppppppp", some 10, "toys", false, "ic", "pc", 1⟩

/-- The listing giving `round_product` the composite score `688/1375`. -/
def round_listing : WebListing := ⟨"xxyyyy", "u4", "", some "10", "shop", none, none, none⟩

/-- A high-confidence candidate (distance `0.5`). -/
def cand_good : RagCandidate := ⟨"g", "tg", 10, "toys", false, "bg", "ig", "pg", 1 / 2⟩

/-- A low-confidence candidate that passes the hard filter (distance `1.2`). -/
def cand_low : RagCandidate := ⟨"l", "tl", 12, "toys", false, "bl", "il", "pl", 6 / 5⟩

/-- A candidate above the default hard threshold (distance `1.4`). -/
def cand_far : RagCandidate := ⟨"f", "tf", 14, "toys", false, "bf", "ifr", "pf", 7 / 5⟩

/-- A web listing whose price string has no digits. -/
def unpriced_listing : WebListing := ⟨"tu", "uu", "", some "abc", "shop", none, none, none⟩

/-- A web listing priced `$2.50`. -/
def priced_listing : WebListing := ⟨"tp", "up", "", some "2.50", "shop", none, none, none⟩

/-! ## Generic helper lemmas -/

theorem foldl_preserve {α β : Type} (f : β → α → β) (P : β → Prop) :
    ∀ (l : List α) (st : β), P st → (∀ s a, a ∈ l → P s → P (f s a)) → P (l.foldl f st) := by
  intro l
  induction l with
  | nil => intro st h _; simpa using h
  | cons a l ih =>
    intro st h hstep
    simp only [List.foldl_cons]
    exact ih (f st a) (hstep st a (by simp) h) (fun s b hb hs => hstep s b (by simp [hb]) hs)

theorem countP_eq_zero_of_not_mem_map {α β : Type} [DecidableEq β] (f : α → β) (l : List α)
    (y : β) (hy : y ∉ l.map f) :
    l.countP (fun a => f a == y) = 0 := by
  apply List.countP_eq_zero.2
  intro a ha
  simp only [beq_iff_eq]
  intro hfa
  exact hy (hfa ▸ List.mem_map_of_mem f ha)

theorem sorted_dropWhile_lt (c : ℚ) :
    ∀ (l : List ℚ), l.Pairwise (· ≤ ·) →
      l.dropWhile (fun t => decide (t < c)) = l.filter (fun t => decide (c ≤ t)) := by
  intro l
  induction l with
  | nil => simp
  | cons a l ih =>
    intro hp
    rw [List.pairwise_cons] at hp
    by_cases hac : a < c
    · rw [List.dropWhile_cons_of_pos (by simpa using hac),
        List.filter_cons_of_neg (by simpa using not_le.2 hac)]
      exact ih hp.2
    · rw [List.dropWhile_cons_of_neg (by simpa using hac),
        List.filter_cons_of_pos (by simpa using not_lt.1 hac)]
      congr 1
      rw [eq_comm, List.filter_eq_self]
      intro b hb
      simpa using le_trans (not_lt.1 hac) (hp.1 b hb)

/-! ## Similarity is a ratio in `[0, 1]` -/

theorem commonRun_le_left : ∀ a b : List Char, commonRun a b ≤ a.length := by
  intro a
  induction a with
  | nil => intro b; cases b <;> simp [commonRun]
  | cons x xs ih =>
    intro b
    cases b with
    | nil => simp [commonRun]
    | cons y ys =>
      simp only [commonRun, List.length_cons]
      split
      · exact Nat.add_le_add_right (ih ys) 1
      · omega

theorem commonRun_le_right : ∀ a b : List Char, commonRun a b ≤ b.length := by
  intro a
  induction a with
  | nil => intro b; cases b <;> simp [commonRun]
  | cons x xs ih =>
    intro b
    cases b with
    | nil => simp [commonRun]
    | cons y ys =>
      simp only [commonRun, List.length_cons]
      split
      · exact Nat.add_le_add_right (ih ys) 1
      · omega

/-- The block found by `longestMatchBlock` fits inside both sequences. -/
theorem longestMatchBlock_bounds (a b : List Char) :
    (longestMatchBlock a b).2.2 = 0 ∨
      ((longestMatchBlock a b).1 + (longestMatchBlock a b).2.2 ≤ a.length ∧
        (longestMatchBlock a b).2.1 + (longestMatchBlock a b).2.2 ≤ b.length) := by
  unfold longestMatchBlock
  apply foldl_preserve
    (P := fun t : ℕ × ℕ × ℕ => t.2.2 = 0 ∨ (t.1 + t.2.2 ≤ a.length ∧ t.2.1 + t.2.2 ≤ b.length))
  · exact Or.inl rfl
  · intro s i hi hs
    have hia : i < a.length := List.mem_range.1 hi
    apply foldl_preserve
      (P := fun t : ℕ × ℕ × ℕ => t.2.2 = 0 ∨ (t.1 + t.2.2 ≤ a.length ∧ t.2.1 + t.2.2 ≤ b.length))
    · exact hs
    · intro s' j hj hs'
      have hjb : j < b.length := List.mem_range.1 hj
      dsimp only
      split
      · refine Or.inr ⟨?_, ?_⟩
        · show i + runAt a b i j ≤ a.length
          have h1 : runAt a b i j ≤ a.length - i := by
            simpa [runAt] using commonRun_le_left (a.drop i) (b.drop j)
          omega
        · show j + runAt a b i j ≤ b.length
          have h2 : runAt a b i j ≤ b.length - j := by
            simpa [runAt] using commonRun_le_right (a.drop i) (b.drop j)
          omega
      · exact hs'

/-- The total matching size is at most the length of either sequence. -/
theorem matchingTotal_le (fuel : ℕ) :
    ∀ a b : List Char, matchingTotal fuel a b ≤ min a.length b.length := by
  induction fuel with
  | zero => intro a b; simp [matchingTotal]
  | succ fuel ih =>
    intro a b
    rw [matchingTotal]
    split
    · simp
    · rename_i hk
      rcases longestMatchBlock_bounds a b with h0 | ⟨hA, hB⟩
      · exact absurd h0 hk
      · have h1 := ih (a.take (longestMatchBlock a b).1) (b.take (longestMatchBlock a b).2.1)
        have h2 := ih (a.drop ((longestMatchBlock a b).1 + (longestMatchBlock a b).2.2))
          (b.drop ((longestMatchBlock a b).2.1 + (longestMatchBlock a b).2.2))
        simp only [List.length_take, List.length_drop] at h1 h2
        apply le_min
        · have hl : min (longestMatchBlock a b).1 a.length = (longestMatchBlock a b).1 := by omega
          omega
        · omega

theorem matchSum_le (a b : List Char) : matchSum a b ≤ min a.length b.length :=
  matchingTotal_le (a.length + 1) a b

theorem ratio_nonneg (a b : List Char) : 0 ≤ ratio a b := by
  simp only [ratio]
  split
  · norm_num
  · positivity

theorem ratio_le_one (a b : List Char) : ratio a b ≤ 1 := by
  simp only [ratio]
  split
  · norm_num
  · rename_i htot
    rw [div_le_one (by positivity)]
    have h := matchSum_le a b
    have h2 : 2 * matchSum a b ≤ a.length + b.length := by omega
    exact_mod_cast h2

theorem similarity_nonneg (a b : String) : 0 ≤ similarity a b := by
  unfold similarity
  split
  · norm_num
  · exact ratio_nonneg _ _

theorem similarity_le_one (a b : String) : similarity a b ≤ 1 := by
  unfold similarity
  split
  · norm_num
  · exact ratio_le_one _ _

/-- Any candidate's composite score is at most `1`. -/
theorem combined_score_le_one (rag_brand rag_title : String) (w : WebListing) :
    combined_score rag_brand rag_title w ≤ 1 := by
  unfold combined_score
  have hb0 : (0:ℚ) ≤ (if rag_brand.isEmpty then 0 else
      similarity rag_brand (String.intercalate " " ((pySplit (normalize_title w.title)).take 3))) := by
    split
    · norm_num
    · exact similarity_nonneg _ _
  have hb1 : (if rag_brand.isEmpty then 0 else
      similarity rag_brand (String.intercalate " " ((pySplit (normalize_title w.title)).take 3))) ≤ 1 := by
    split
    · norm_num
    · exact similarity_le_one _ _
  have ht0 := similarity_nonneg rag_title (normalize_title w.title)
  have ht1 := similarity_le_one rag_title (normalize_title w.title)
  dsimp only
  split
  · exact min_le_right _ _
  · nlinarith

/-- With an empty normalized brand the composite score is at most `3/5`:
the brand term is zero and the snippet bonus cannot fire. -/
theorem combined_score_le_of_brand_empty (rag_title : String) (w : WebListing) :
    combined_score "" rag_title w ≤ 3 / 5 := by
  unfold combined_score
  have ht1 := similarity_le_one rag_title (normalize_title w.title)
  simp only [String.isEmpty, beq_self_eq_true, Bool.not_true, Bool.false_and, if_true]
  norm_num
  nlinarith [similarity_nonneg rag_title (normalize_title w.title)]

/-- Any candidate's composite score is non-negative. -/
theorem combined_score_nonneg (rag_brand rag_title : String) (w : WebListing) :
    0 ≤ combined_score rag_brand rag_title w := by
  unfold combined_score
  have hb0 : (0:ℚ) ≤ (if rag_brand.isEmpty then 0 else
      similarity rag_brand (String.intercalate " " ((pySplit (normalize_title w.title)).take 3))) := by
    split
    · norm_num
    · exact similarity_nonneg _ _
  have ht0 := similarity_nonneg rag_title (normalize_title w.title)
  dsimp only
  split
  · exact le_min (by nlinarith) (by norm_num)
  · nlinarith

/-! ## Rounding bounds -/

theorem roundHalfEven_ge_floor (q : ℚ) : ⌊q⌋ ≤ roundHalfEven q := by
  unfold roundHalfEven
  dsimp only
  split
  · exact le_refl _
  · split
    · omega
    · split <;> omega

theorem roundHalfEven_le_ceil (q : ℚ) : roundHalfEven q ≤ ⌈q⌉ := by
  have hfr : (⌊q⌋ : ℚ) ≤ q := Int.floor_le q
  have key : 0 < q - ⌊q⌋ → ⌊q⌋ + 1 ≤ ⌈q⌉ := by
    intro hpos
    have h1 : (⌊q⌋ : ℚ) < q := by linarith
    have h2 : (⌊q⌋ : ℚ) < (⌈q⌉ : ℚ) := lt_of_lt_of_le h1 (Int.le_ceil q)
    have h3 : ⌊q⌋ < ⌈q⌉ := by exact_mod_cast h2
    omega
  unfold roundHalfEven
  dsimp only
  split
  · exact Int.floor_le_ceil q
  · rename_i h1
    split
    · rename_i h2
      exact key (by linarith)
    · split <;> [exact Int.floor_le_ceil q; exact key (by linarith)]

/-- `roundTo` keeps a bound of the form `raw ≤ k / 10^n`. -/
theorem roundTo_le_of_le (n : ℕ) (q bound : ℚ) (k : ℤ) (hk : bound = (k : ℚ) / 10 ^ n)
    (h : q ≤ bound) : roundTo n q ≤ bound := by
  unfold roundTo
  rw [hk, div_le_div_iff_of_pos_right (show (0:ℚ) < 10 ^ n by positivity)]
  have hc : roundHalfEven (q * 10 ^ n) ≤ ⌈q * 10 ^ n⌉ := roundHalfEven_le_ceil _
  have hck : ⌈q * 10 ^ n⌉ ≤ k := by
    rw [Int.ceil_le]
    rw [hk] at h
    calc q * 10 ^ n ≤ ((k : ℚ) / 10 ^ n) * 10 ^ n := by
          apply mul_le_mul_of_nonneg_right h (by positivity)
      _ = (k : ℚ) := by field_simp
  have : roundHalfEven (q * 10 ^ n) ≤ k := le_trans hc hck
  exact_mod_cast this

/-- `roundTo` keeps a strict lower bound of the form `k / 10^n < raw` weakly. -/
theorem roundTo_ge_of_lt (n : ℕ) (q bound : ℚ) (k : ℤ) (hk : bound = (k : ℚ) / 10 ^ n)
    (h : bound < q) : bound ≤ roundTo n q := by
  unfold roundTo
  rw [hk, div_le_div_iff_of_pos_right (show (0:ℚ) < 10 ^ n by positivity)]
  have hc : ⌊q * 10 ^ n⌋ ≤ roundHalfEven (q * 10 ^ n) := roundHalfEven_ge_floor _
  have hck : k ≤ ⌊q * 10 ^ n⌋ := by
    rw [Int.le_floor]
    rw [hk] at h
    calc (k : ℚ) = ((k : ℚ) / 10 ^ n) * 10 ^ n := by field_simp
      _ ≤ q * 10 ^ n := mul_le_mul_of_nonneg_right (le_of_lt h) (by positivity)
  have : k ≤ roundHalfEven (q * 10 ^ n) := le_trans hck hc
  exact_mod_cast this

/-! ## Matcher scan invariant -/

/-- After the scan, either nothing was accepted (score still `0`) or the
best score is above `1/2` and below any uniform bound on candidate scores. -/
theorem scan_state_bound (rag_brand rag_title : String) (used : List ℕ)
    (l : List (ℕ × WebListing)) (B : ℚ)
    (hB : ∀ w : WebListing, combined_score rag_brand rag_title w ≤ B) :
    (((l.foldl (match_candidate_step rag_brand rag_title used) (0, none)).2 = none →
        (l.foldl (match_candidate_step rag_brand rag_title used) (0, none)).1 = 0) ∧
      (∀ iw, (l.foldl (match_candidate_step rag_brand rag_title used) (0, none)).2 = some iw →
        1 / 2 < (l.foldl (match_candidate_step rag_brand rag_title used) (0, none)).1 ∧
          (l.foldl (match_candidate_step rag_brand rag_title used) (0, none)).1 ≤ B)) := by
  apply foldl_preserve (P := fun st : ℚ × Option (ℕ × WebListing) =>
    (st.2 = none → st.1 = 0) ∧ (∀ iw, st.2 = some iw → 1 / 2 < st.1 ∧ st.1 ≤ B))
  · exact ⟨fun _ => rfl, fun iw h => by simp at h⟩
  · intro s a _ hs
    unfold match_candidate_step
    split
    · exact hs
    · dsimp only
      split
      · rename_i hacc
        exact ⟨fun h => by simp at h, fun iw _ => ⟨hacc.2, hB a.2⟩⟩
      · exact hs

/-- Every accepted best match carries a pre-rounding composite score in
`(1/2, 1]`; the stored score is that value rounded to 3 decimals (hence in
`[1/2, 1]`) and the tag compares the pre-rounding score with `0.7`. -/
theorem find_best_score_range (p : CatalogProduct) (web : List WebListing)
    (used : List ℕ) (m : BestMatch)
    (h : find_best_match_for_product p web used = some m) :
    ∃ raw : ℚ, 1 / 2 < raw ∧ raw ≤ 1 ∧ m.similarity_score = roundTo 3 raw ∧
      m.match_type = (if 7 / 10 < raw then "brand_title" else "partial") ∧
      1 / 2 ≤ m.similarity_score ∧ m.similarity_score ≤ 1 := by
  simp only [find_best_match_for_product] at h
  set st := web.enum.foldl
    (match_candidate_step (normalize_brand p.brand) (normalize_title p.title) used)
    (0, none) with hst
  have inv := scan_state_bound (normalize_brand p.brand) (normalize_title p.title) used
    web.enum 1 (fun w => combined_score_le_one _ _ w)
  rw [← hst] at inv
  match h2 : st.2 with
  | none => rw [h2] at h; simp at h
  | some iw =>
    rw [h2] at h
    simp only [Option.some.injEq] at h
    have hsc := inv.2 iw h2
    refine ⟨st.1, hsc.1, hsc.2, ?_, ?_, ?_, ?_⟩
    · rw [← h]
    · rw [← h]
    · rw [← h]
      exact roundTo_ge_of_lt 3 st.1 (1 / 2) 500 (by norm_num) hsc.1
    · rw [← h]
      exact roundTo_le_of_le 3 st.1 1 1000 (by norm_num) hsc.2

/-- Claim C10: a catalog product with an empty (or missing) brand never
obtains a match with composite score above `3/5 = 0.6`, because only the
`0.6`-weighted title similarity contributes and the snippet bonus needs a
non-empty brand; consequently its match-type tag is always `"partial"`. -/
theorem empty_brand_match_is_partial (p : CatalogProduct) (web : List WebListing)
    (used : List ℕ) (m : BestMatch) (hb : p.brand = "")
    (h : find_best_match_for_product p web used = some m) :
    m.similarity_score ≤ 3 / 5 ∧ m.match_type = "partial" := by
  simp only [find_best_match_for_product] at h
  rw [hb, show normalize_brand "" = "" from rfl] at h
  set st := web.enum.foldl
    (match_candidate_step "" (normalize_title p.title) used) (0, none) with hst
  have inv := scan_state_bound "" (normalize_title p.title) used web.enum (3 / 5)
    (fun w => combined_score_le_of_brand_empty _ w)
  rw [← hst] at inv
  match h2 : st.2 with
  | none => rw [h2] at h; simp at h
  | some iw =>
    rw [h2] at h
    simp only [Option.some.injEq] at h
    have hsc := inv.2 iw h2
    constructor
    · rw [← h]
      exact roundTo_le_of_le 3 st.1 (3 / 5) 600 (by norm_num) hsc.2
    · rw [← h]
      show (if 7 / 10 < st.1 then "brand_title" else "partial") = "partial"
      rw [if_neg (by linarith [hsc.2])]

/-- Claim C10 witness: the brandless product `abc_product_a` matches
`abc_listing` with score exactly `3/5` and tag `"partial"`. -/
theorem empty_brand_match_is_partial_witness :
    abc_best.similarity_score ≤ 3 / 5 ∧ abc_best.match_type = "partial" :=
  empty_brand_match_is_partial abc_product_a [abc_listing] [] abc_best rfl (by decide)

/-- Claim C4 witness: a concretely produced best match realizes the
score bounds of the characterization. -/
theorem find_best_score_range_witness :
    1 / 2 ≤ abc_best.similarity_score ∧ abc_best.similarity_score ≤ 1 := by
  obtain ⟨raw, _, _, _, _, h5, h6⟩ :=
    find_best_score_range abc_product_a [abc_listing] [] abc_best (by decide)
  exact ⟨h5, h6⟩

/-- Claim C4 counterexample: the pair produced for `round_product` against
`round_listing` is accepted with pre-rounding composite score
`688/1375 ∈ (0.5, 0.5005)`, so its stored 3-decimal score is exactly
`0.5`, not strictly greater than `0.5` as the claim states. -/
theorem matched_pair_score_not_above_half :
    (match_products_serial [round_product] [round_listing]).map
      (fun m => m.similarity_score) = [1 / 2] ∧ ¬((1 : ℚ) / 2 < 1 / 2) := by decide

/-- Claim C2: under the legal schedule in which every per-product scan
completes before any claim is recorded (the implementation submits all
tasks before collecting any result), two distinct catalog products both
claim the single web listing: the one-to-one invariant fails. -/
theorem unsynced_match_reuses_listing :
    abc_product_a.doc_id ≠ abc_product_b.doc_id ∧
      (match_products_unsynced [abc_product_a, abc_product_b] [abc_listing]).map
        (fun m => m.web_product) = [abc_listing, abc_listing] := by decide

/-! ## Conflict detector -/

theorem detect_conflicts_acc (pairs : List MatchedPair) :
    ∀ acc : List ConflictRecord,
      pairs.foldl
        (fun conflicts pair =>
          let conflict : ConflictRecord :=
            { rag_product_id := pair.rag_product.doc_id, rag_title := pair.rag_product.title,
              web_url := pair.web_product.url, web_title := pair.web_product.title,
              conflicts := pair_price_conflicts pair }
          if conflict.conflicts.isEmpty then conflicts else conflicts ++ [conflict]) acc =
      acc ++ detect_conflicts pairs := by
  induction pairs with
  | nil => intro acc; simp [detect_conflicts]
  | cons p ps ih =>
    intro acc
    simp only [detect_conflicts, List.foldl_cons]
    rw [ih, ih]
    split <;> simp

/-- Claim C3 (amended): the detector treats pairs independently, and a
pair yields a conflict entry iff both prices are truthy — present *and
non-zero* — and the difference clears one of the thresholds (the
percentage test applies only for a positive catalog price). -/
theorem detect_conflicts_characterization :
    (∀ pairs : List MatchedPair,
        detect_conflicts pairs = (pairs.map (fun p => detect_conflicts [p])).flatten) ∧
      (∀ pair : MatchedPair, detect_conflicts [pair] ≠ [] ↔
        ∃ rag_price web_price : ℚ, pair.rag_product.price = some rag_price ∧
          extract_price pair.web_product.price = some web_price ∧
          rag_price ≠ 0 ∧ web_price ≠ 0 ∧
          (20 < (if 0 < rag_price then |rag_price - web_price| / rag_price * 100 else 0) ∨
            5 < |rag_price - web_price|)) := by
  constructor
  · intro pairs
    induction pairs with
    | nil => simp [detect_conflicts]
    | cons p ps ih =>
      have h1 : detect_conflicts (p :: ps) = detect_conflicts [p] ++ detect_conflicts ps := by
        simp only [detect_conflicts, List.foldl_cons, List.foldl_nil]
        exact detect_conflicts_acc ps _
      rw [h1, ih]
      simp
  · intro pair
    have hsingle : detect_conflicts [pair] =
        (if (pair_price_conflicts pair).isEmpty then []
          else [({ rag_product_id := pair.rag_product.doc_id,
                   rag_title := pair.rag_product.title,
                   web_url := pair.web_product.url, web_title := pair.web_product.title,
                   conflicts := pair_price_conflicts pair } : ConflictRecord)]) := by
      simp [detect_conflicts]
    rw [hsingle]
    match hrp : pair.rag_product.price, hwp : extract_price pair.web_product.price with
    | none, _ =>
      simp [pair_price_conflicts, hrp]
    | some rp, none =>
      simp [pair_price_conflicts, hrp, hwp]
    | some rp, some wp =>
      simp only [pair_price_conflicts, hrp, hwp, Option.some.injEq, exists_eq_left']
      by_cases hz : rp ≠ 0 ∧ wp ≠ 0
      · rw [if_pos hz]
        by_cases hthr :
            20 < (if 0 < rp then |rp - wp| / rp * 100 else 0) ∨ 5 < |rp - wp|
        · rw [if_pos hthr]
          simp [hz.1, hz.2, hthr]
        · rw [if_neg hthr]
          simp only [List.isEmpty_nil, if_true, ne_eq, not_true_eq_false, false_iff]
          rintro ⟨x, y, rfl, rfl, _, _, hC⟩
          exact hthr hC
      · rw [if_neg hz]
        simp only [List.isEmpty_nil, if_true, ne_eq, not_true_eq_false, false_iff]
        rintro ⟨x, y, rfl, rfl, hx0, hy0, _⟩
        exact hz ⟨hx0, hy0⟩

/-- Claim C3 counterexample: a pair whose catalog price is present but
equal to `0` while the web price parses to `100` satisfies the claim's
conflict condition (`|0 - 100| > 5`), yet the detector records nothing,
because Python truthiness treats the zero price as absent. -/
theorem zero_price_yields_no_conflict :
    detect_conflicts [zero_price_pair] = [] ∧
      zero_price_pair.rag_product.price = some 0 ∧
      extract_price zero_price_pair.web_product.price = some 100 ∧
      5 < |(0 : ℚ) - 100| :=
  ⟨by decide, rfl, by decide, by norm_num⟩

/-! ## Executor price-window filter -/

theorem price_filter_step_eq (price_min price_max : Option ℚ) (acc : List WebListing)
    (r : WebListing) :
    price_filter_step price_min price_max acc r =
      (if (truthyQ (extract_price r.price) &&
          !(truthyQ price_max && decide (price_max.getD 0 < (extract_price r.price).getD 0)) &&
          !(truthyQ price_min && decide ((extract_price r.price).getD 0 < price_min.getD 0)))
        then acc ++ [r] else acc) := by
  simp only [price_filter_step]
  by_cases h1 : truthyQ (extract_price r.price) = true
  · by_cases h2 :
        (truthyQ price_max && decide (price_max.getD 0 < (extract_price r.price).getD 0)) = true
    · simp [h1, h2]
    · by_cases h3 :
          (truthyQ price_min && decide ((extract_price r.price).getD 0 < price_min.getD 0)) = true
      · simp [h1, h2, h3]
      · simp [h1, h2, h3]
  · simp [h1]

theorem price_filter_loop (price_min price_max : Option ℚ) (ws : List WebListing) :
    ∀ acc : List WebListing,
      ws.foldl (price_filter_step price_min price_max) acc =
        acc ++ ws.filter (fun r =>
          truthyQ (extract_price r.price) &&
          !(truthyQ price_max && decide (price_max.getD 0 < (extract_price r.price).getD 0)) &&
          !(truthyQ price_min && decide ((extract_price r.price).getD 0 < price_min.getD 0))) := by
  induction ws with
  | nil => intro acc; simp
  | cons r rs ih =>
    intro acc
    simp only [List.foldl_cons, List.filter_cons]
    rw [price_filter_step_eq]
    split
    · rw [ih]
      simp
    · rw [ih]

/-- Claim C7 (amended): when a truthy bound is supplied, the merged list
is filtered down to exactly the listings whose price string parses to a
non-zero number lying within every truthy bound; listings with a missing,
unparseable or zero price are removed as well. -/
theorem price_window_filter_mem (price_min price_max : Option ℚ) (ws : List WebListing)
    (hb : (truthyQ price_max || truthyQ price_min) = true) (r : WebListing) :
    r ∈ price_window_filter price_min price_max ws ↔
      r ∈ ws ∧ ∃ p : ℚ, extract_price r.price = some p ∧ p ≠ 0 ∧
        (truthyQ price_max = true → p ≤ price_max.getD 0) ∧
        (truthyQ price_min = true → price_min.getD 0 ≤ p) := by
  unfold price_window_filter
  rw [if_pos hb, price_filter_loop, List.nil_append, List.mem_filter]
  constructor
  · rintro ⟨hmem, hcond⟩
    refine ⟨hmem, ?_⟩
    match hp : extract_price r.price with
    | none => rw [hp] at hcond; simp [truthyQ] at hcond
    | some p =>
      rw [hp] at hcond
      refine ⟨p, rfl, ?_, ?_, ?_⟩
      · intro hp0
        rw [hp0] at hcond
        simp [truthyQ] at hcond
      · intro hmax
        by_contra hlt
        rw [not_le] at hlt
        simp [hmax, hlt] at hcond
      · intro hmin
        by_contra hlt
        rw [not_le] at hlt
        simp [hmin, hlt] at hcond
  · rintro ⟨hmem, p, hp, hp0, hmax, hmin⟩
    refine ⟨hmem, ?_⟩
    rw [hp]
    simp only [Option.getD_some, Bool.and_eq_true]
    refine ⟨⟨by simp [truthyQ, hp0], ?_⟩, ?_⟩
    · by_cases hm : truthyQ price_max = true
      · simp [not_lt.2 (hmax hm)]
      · rw [Bool.not_eq_true] at hm
        simp [hm]
    · by_cases hm : truthyQ price_min = true
      · simp [not_lt.2 (hmin hm)]
      · rw [Bool.not_eq_true] at hm
        simp [hm]

/-- Claim C7 witness: a listing priced `$2.50` passes a `price_min = 1`
window. -/
theorem price_window_filter_mem_witness :
    priced_listing ∈ price_window_filter (some 1) none [priced_listing] :=
  (price_window_filter_mem (some 1) none [priced_listing] (by decide) priced_listing).mpr
    ⟨by simp, 5 / 2, by decide, by norm_num,
      fun h => by simp [truthyQ] at h, fun _ => by norm_num⟩

/-- Claim C7 counterexample: with a supplied `price_min = 1`, a listing
whose price string has no parseable number is removed, although the claim
states such listings are retained. -/
theorem unparsable_price_dropped :
    price_window_filter (some 1) none [unpriced_listing] = [] ∧
      extract_price unpriced_listing.price = none := by decide

/-! ## Catalog result formatting -/

theorem surviving_cons_skip (hard : ℚ) (c : RagCandidate) (rest : List RagCandidate)
    (hd : hard < c.distance) : surviving hard (c :: rest) = surviving hard rest := by
  simp [surviving, List.filter_cons, hd]

theorem surviving_cons_keep (hard : ℚ) (c : RagCandidate) (rest : List RagCandidate)
    (hd : ¬hard < c.distance) : surviving hard (c :: rest) = c :: surviving hard rest := by
  simp [surviving, List.filter_cons, hd]

/-- Closed form of the collection loop: starting below the limit, it
returns the accumulator followed by the first `top_k - acc.length`
survivors, and counts the low-confidence ones among them. -/
theorem format_results_loop_closed (hard : ℚ) (cands : List RagCandidate) :
    ∀ (top_k : ℕ) (acc : List CatalogProduct) (low : ℕ), acc.length < top_k →
      format_results_loop hard cands top_k acc low =
        (acc.reverse ++ ((surviving hard cands).take (top_k - acc.length)).map rag_product_of,
          low + ((surviving hard cands).take (top_k - acc.length)).countP
            (fun c => decide (SOFT_THRESHOLD < c.distance))) := by
  induction cands with
  | nil =>
    intro k acc low _
    simp [format_results_loop, surviving]
  | cons c rest ih =>
    intro k acc low hlt
    by_cases hd : hard < c.distance
    · rw [show format_results_loop hard (c :: rest) k acc low =
          format_results_loop hard rest k acc low by
          simp [format_results_loop, hd]]
      rw [ih k acc low hlt, surviving_cons_skip hard c rest hd]
    · have hs := surviving_cons_keep hard c rest hd
      have hk1 : 1 ≤ k - acc.length := by omega
      have htake : (surviving hard (c :: rest)).take (k - acc.length) =
          c :: (surviving hard rest).take (k - acc.length - 1) := by
        rw [hs]
        match hkk : k - acc.length, hk1 with
        | n + 1, _ => simp
      by_cases hstop : k ≤ acc.length + 1
      · have hloop : format_results_loop hard (c :: rest) k acc low =
            ((rag_product_of c :: acc).reverse,
              if SOFT_THRESHOLD < c.distance then low + 1 else low) := by
          simp only [format_results_loop, if_neg hd]
          rw [if_pos (by simpa using hstop)]
        rw [hloop, htake]
        have hz : k - acc.length - 1 = 0 := by omega
        rw [hz]
        simp only [List.take_zero, List.map_cons, List.map_nil, List.reverse_cons,
          List.countP_cons, List.countP_nil]
        rw [Prod.mk.injEq]
        refine ⟨rfl, ?_⟩
        split <;> rename_i hsoft <;> simp [hsoft]
      · have hloop : format_results_loop hard (c :: rest) k acc low =
            format_results_loop hard rest k (rag_product_of c :: acc)
              (if SOFT_THRESHOLD < c.distance then low + 1 else low) := by
          simp only [format_results_loop, if_neg hd]
          rw [if_neg (by simpa using hstop)]
        rw [hloop, ih k (rag_product_of c :: acc) _ (by simp; omega), htake]
        have hlen : k - (rag_product_of c :: acc).length = k - acc.length - 1 := by
          simp; omega
        rw [hlen]
        simp only [List.reverse_cons, List.map_cons, List.countP_cons]
        rw [Prod.mk.injEq]
        refine ⟨by simp, ?_⟩
        split <;> rename_i hsoft <;> simp [hsoft] <;> omega

/-- `_format_results` in terms of the collected candidates: empty when
all collected candidates are low-confidence, the collected candidates
otherwise. -/
theorem format_results_eq (hard : ℚ) (cands : List RagCandidate) (top_k : ℕ)
    (hk : 1 ≤ top_k) :
    format_results hard cands top_k =
      (if collectedCandidates hard cands top_k ≠ [] ∧
          (collectedCandidates hard cands top_k).countP
            (fun c => decide (SOFT_THRESHOLD < c.distance)) =
          (collectedCandidates hard cands top_k).length
        then [] else (collectedCandidates hard cands top_k).map rag_product_of) := by
  have hmax : max top_k 1 = top_k := by omega
  have hcl : collectedCandidates hard cands top_k = (surviving hard cands).take top_k := by
    rw [collectedCandidates, hmax]
  unfold format_results
  rw [format_results_loop_closed hard cands top_k [] 0 (by simpa using hk)]
  simp only [List.reverse_nil, List.nil_append, List.length_nil, Nat.sub_zero, Nat.zero_add]
  rw [← hcl]
  by_cases hne : collectedCandidates hard cands top_k = []
  · rw [hne]
    simp
  · by_cases hall : (collectedCandidates hard cands top_k).countP
        (fun c => decide (SOFT_THRESHOLD < c.distance)) =
        (collectedCandidates hard cands top_k).length
    · have hmap_ne :
          (!(List.map rag_product_of (collectedCandidates hard cands top_k)).isEmpty) = true := by
        simpa using hne
      have hcnt : (collectedCandidates hard cands top_k).countP
          (fun c => decide (SOFT_THRESHOLD < c.distance)) =
          (List.map rag_product_of (collectedCandidates hard cands top_k)).length := by
        simpa using hall
      rw [if_pos ⟨hmap_ne, hcnt⟩, if_pos ⟨hne, hall⟩]
    · have h2 : ¬((!(List.map rag_product_of (collectedCandidates hard cands top_k)).isEmpty) = true ∧
          (collectedCandidates hard cands top_k).countP
            (fun c => decide (SOFT_THRESHOLD < c.distance)) =
            (List.map rag_product_of (collectedCandidates hard cands top_k)).length) := by
        intro hcon
        exact hall (by simpa using hcon.2)
      rw [if_neg h2, if_neg (by simp [hall])]

theorem mem_surviving {hard : ℚ} {cands : List RagCandidate} {c : RagCandidate} :
    c ∈ surviving hard cands ↔ c ∈ cands ∧ c.distance ≤ hard := by
  simp [surviving, List.mem_filter, not_lt]

/-- Claim C5: on distance-sorted input (as the vector store returns it),
if every hard-filter survivor is low-confidence the adapter returns the
empty list; otherwise it returns the collected survivors — up to `top_k`
of them, and at least one. -/
theorem format_results_low_confidence_suppression (cands : List RagCandidate) (top_k : ℕ)
    (hsort : cands.Pairwise (fun a b => a.distance ≤ b.distance)) (hk : 1 ≤ top_k) :
    ((∀ c ∈ cands, c.distance ≤ HARD_THRESHOLD → SOFT_THRESHOLD < c.distance) →
      format_results HARD_THRESHOLD cands top_k = []) ∧
    ((∃ c ∈ cands, c.distance ≤ HARD_THRESHOLD ∧ c.distance ≤ SOFT_THRESHOLD) →
      format_results HARD_THRESHOLD cands top_k =
        (collectedCandidates HARD_THRESHOLD cands top_k).map rag_product_of ∧
      format_results HARD_THRESHOLD cands top_k ≠ [] ∧
      (format_results HARD_THRESHOLD cands top_k).length ≤ top_k) := by
  have hcoll_sub : ∀ c ∈ collectedCandidates HARD_THRESHOLD cands top_k,
      c ∈ cands ∧ c.distance ≤ HARD_THRESHOLD := by
    intro c hc
    exact mem_surviving.1 (List.mem_of_mem_take hc)
  constructor
  · intro hall
    rw [format_results_eq HARD_THRESHOLD cands top_k hk]
    by_cases hne : collectedCandidates HARD_THRESHOLD cands top_k = []
    · rw [if_neg (by simp [hne]), hne]
      simp
    · rw [if_pos]
      refine ⟨hne, ?_⟩
      rw [List.countP_eq_length]
      intro c hc
      have h2 := hcoll_sub c hc
      simpa using hall c h2.1 h2.2
  · rintro ⟨g, hg, hgh, hgs⟩
    have hgsurv : g ∈ surviving HARD_THRESHOLD cands := mem_surviving.2 ⟨hg, hgh⟩
    have hsurv_ne : surviving HARD_THRESHOLD cands ≠ [] := by
      intro h
      rw [h] at hgsurv
      simp at hgsurv
    have hcoll_ne : collectedCandidates HARD_THRESHOLD cands top_k ≠ [] := by
      unfold collectedCandidates
      intro h
      have := congrArg List.length h
      rw [List.length_take] at this
      simp only [List.length_nil] at this
      have h1 : 0 < (surviving HARD_THRESHOLD cands).length :=
        List.length_pos.2 hsurv_ne
      omega
    have hnotall : ¬((collectedCandidates HARD_THRESHOLD cands top_k).countP
        (fun c => decide (SOFT_THRESHOLD < c.distance)) =
        (collectedCandidates HARD_THRESHOLD cands top_k).length) := by
      rw [List.countP_eq_length]
      intro hall
      have hsorted : (surviving HARD_THRESHOLD cands).Pairwise
          (fun a b => a.distance ≤ b.distance) := List.Pairwise.filter _ hsort
      have hsplit := List.take_append_drop (max top_k 1) (surviving HARD_THRESHOLD cands)
      rcases List.mem_append.1 (hsplit ▸ hgsurv) with hgin | hgout
      · have := hall g hgin
        simp only [decide_eq_true_eq] at this
        exact absurd hgs (not_le.2 this)
      · obtain ⟨x, hx⟩ := List.exists_mem_of_ne_nil _ hcoll_ne
        have hxlow := hall x hx
        simp only [decide_eq_true_eq] at hxlow
        have hcross : x.distance ≤ g.distance := by
          rw [← hsplit] at hsorted
          exact (List.pairwise_append.1 hsorted).2.2 x hx g hgout
        exact absurd hgs (not_le.2 (lt_of_lt_of_le hxlow hcross))
    rw [format_results_eq HARD_THRESHOLD cands top_k hk, if_neg (by simp [hnotall])]
    refine ⟨rfl, ?_, ?_⟩
    · simpa using hcoll_ne
    · rw [List.length_map]
      unfold collectedCandidates
      rw [List.length_take]
      omega

/-- Claim C5 witness: a sorted candidate list with one good and one
low-confidence survivor is returned whole for `top_k = 2`. -/
theorem format_results_low_confidence_suppression_witness :
    format_results HARD_THRESHOLD [cand_good, cand_low] 2 =
      (collectedCandidates HARD_THRESHOLD [cand_good, cand_low] 2).map rag_product_of ∧
    format_results HARD_THRESHOLD [cand_good, cand_low] 2 ≠ [] ∧
    (format_results HARD_THRESHOLD [cand_good, cand_low] 2).length ≤ 2 :=
  (format_results_low_confidence_suppression [cand_good, cand_low] 2 (by decide)
    (by norm_num)).2 ⟨cand_good, by simp, by decide, by decide⟩

/-- Claim C6 (amended): raising the hard threshold never shrinks the
collected (pre-suppression) candidate set; the returned list is either
that set or, under all-low-confidence suppression, empty. -/
theorem collected_count_monotone_in_hard (hard hard' : ℚ) (cands : List RagCandidate)
    (top_k : ℕ) (h : hard ≤ hard') :
    (collectedCandidates hard cands top_k).length ≤
      (collectedCandidates hard' cands top_k).length ∧
    (1 ≤ top_k → format_results hard cands top_k = [] ∨
      format_results hard cands top_k =
        (collectedCandidates hard cands top_k).map rag_product_of) := by
  constructor
  · unfold collectedCandidates
    rw [List.length_take, List.length_take]
    have hmono : (surviving hard cands).length ≤ (surviving hard' cands).length := by
      unfold surviving
      rw [← List.countP_eq_length_filter, ← List.countP_eq_length_filter]
      apply List.countP_mono_left
      intro c _ hc
      simp only [Bool.not_eq_true', decide_eq_false_iff_not, not_lt] at hc ⊢
      exact le_trans hc h
    omega
  · intro hk
    rw [format_results_eq hard cands top_k hk]
    split
    · exact Or.inl rfl
    · exact Or.inr rfl

/-- Claim C6 witness: instantiation of the monotonicity statement at the
default threshold against a raised one. -/
theorem collected_count_monotone_in_hard_witness :
    (collectedCandidates HARD_THRESHOLD [cand_good, cand_far] 5).length ≤
      (collectedCandidates (3 / 2) [cand_good, cand_far] 5).length ∧
    (1 ≤ 5 → format_results HARD_THRESHOLD [cand_good, cand_far] 5 = [] ∨
      format_results HARD_THRESHOLD [cand_good, cand_far] 5 =
        (collectedCandidates HARD_THRESHOLD [cand_good, cand_far] 5).map rag_product_of) :=
  collected_count_monotone_in_hard HARD_THRESHOLD (3 / 2) [cand_good, cand_far] 5
    (by norm_num [HARD_THRESHOLD])

/-- Claim C6 counterexample: raising the hard threshold from `1.3` to
`1.5` admits the distance-`1.4` candidate and the adapter returns *more*
candidates (2 instead of 1), so the returned count is not antitone in the
hard threshold. -/
theorem raising_hard_threshold_increases_returns :
    HARD_THRESHOLD < 3 / 2 ∧
      (format_results HARD_THRESHOLD [cand_good, cand_far] 5).length <
        (format_results (3 / 2) [cand_good, cand_far] 5).length := by decide

/-! ## Rate limiter -/

/-- Claim C8: with a monotone recorded-call history (as a real clock
produces), `is_allowed` returns `true` exactly when fewer than
`max_calls` recorded timestamps lie within the rolling 60-second window
ending at the current time; in particular once `max_calls` calls lie in
the window the next check is refused. -/
theorem is_allowed_iff_window_count (rl : RateLimiter) (current_time : ℚ)
    (hsorted : rl.calls.Pairwise (· ≤ ·)) :
    ((rl.is_allowed_at current_time).1 = true ↔
      (rl.calls.countP (fun t => decide (current_time - 60 ≤ t))) < rl.max_calls) ∧
    (rl.max_calls ≤ (rl.calls.countP (fun t => decide (current_time - 60 ≤ t))) →
      (rl.is_allowed_at current_time).1 = false) := by
  have hdrop := sorted_dropWhile_lt (current_time - 60) rl.calls hsorted
  have hlen : (rl.calls.dropWhile (fun t => decide (t < current_time - 60))).length =
      rl.calls.countP (fun t => decide (current_time - 60 ≤ t)) := by
    rw [hdrop, ← List.countP_eq_length_filter]
  constructor
  · unfold RateLimiter.is_allowed_at
    simp only [decide_eq_true_eq]
    rw [hlen]
  · intro hge
    unfold RateLimiter.is_allowed_at
    simp only [decide_eq_false_iff_not, not_lt]
    rw [hlen]
    exact hge

/-- Claim C8 witness: with limit 2 and both recorded calls inside the
window, the next immediate check is refused. -/
theorem is_allowed_iff_window_count_witness :
    (((RateLimiter.mk 2 [0, 30]).is_allowed_at 50).1 = true ↔
      ((RateLimiter.mk 2 [0, 30]).calls.countP (fun t => decide ((50:ℚ) - 60 ≤ t))) < 2) ∧
    (2 ≤ ((RateLimiter.mk 2 [0, 30]).calls.countP (fun t => decide ((50:ℚ) - 60 ≤ t))) →
      ((RateLimiter.mk 2 [0, 30]).is_allowed_at 50).1 = false) :=
  is_allowed_iff_window_count (RateLimiter.mk 2 [0, 30]) 50 (by norm_num)

/-! ## TTL cache -/

/-- Claim C9: a `get` before the entry's expiry (set time plus TTL, which
defaults to 300 seconds, counted from the most recent `set` of the key)
returns the stored value; a `get` at or past the expiry reports absent
and deletes the entry; after `clear` every key reports absent. -/
theorem cache_get_set_clear {α : Type} (c : SimpleCache α) (key : String) (value : α)
    (t tq : ℚ) :
    (tq < t + c.ttl → ((c.set_at key value t).get_at key tq).1 = some value) ∧
    (t + c.ttl ≤ tq → ((c.set_at key value t).get_at key tq).1 = none ∧
      ((c.set_at key value t).get_at key tq).2.store key = none) ∧
    (∀ (k : String) (t2 : ℚ), (c.clear.get_at k t2).1 = none) := by
  refine ⟨?_, ?_, ?_⟩
  · intro hlt
    simp [SimpleCache.get_at, SimpleCache.set_at, hlt]
  · intro hge
    simp [SimpleCache.get_at, SimpleCache.set_at, not_lt.2 hge]
  · intro k t2
    simp [SimpleCache.get_at, SimpleCache.clear]

/-- Claim C9 witness: with the default 300-second TTL, a value set at
time 0 is served at time 100, absent and deleted at time 400, and absent
for every key after `clear`. -/
theorem cache_get_set_clear_witness :
    (((SimpleCache.mk default_ttl_seconds (fun _ => none) : SimpleCache ℕ).set_at "k" 7 0).get_at
        "k" 100).1 = some 7 ∧
    (((SimpleCache.mk default_ttl_seconds (fun _ => none) : SimpleCache ℕ).set_at "k" 7 0).get_at
        "k" 400).1 = none ∧
    (((SimpleCache.mk default_ttl_seconds (fun _ => none) : SimpleCache ℕ).set_at "k" 7 0).get_at
        "k" 400).2.store "k" = none ∧
    ((SimpleCache.mk default_ttl_seconds (fun _ => none) : SimpleCache ℕ).clear.get_at
        "z" 5).1 = none :=
  ⟨(cache_get_set_clear (SimpleCache.mk default_ttl_seconds (fun _ => none)) "k" 7 0 100).1
      (by norm_num [default_ttl_seconds]),
    ((cache_get_set_clear (SimpleCache.mk default_ttl_seconds (fun _ => none)) "k" 7 0 400).2.1
      (by norm_num [default_ttl_seconds])).1,
    ((cache_get_set_clear (SimpleCache.mk default_ttl_seconds (fun _ => none)) "k" 7 0 400).2.1
      (by norm_num [default_ttl_seconds])).2,
    (cache_get_set_clear (SimpleCache.mk default_ttl_seconds (fun _ => none)) "k" 7 0 400).2.2
      "z" 5⟩

/-! ## Comparison-table partition -/

theorem contains_iff_mem' {γ : Type} [DecidableEq γ] (l : List γ) (x : γ) :
    l.contains x = true ↔ x ∈ l := by
  simp [List.contains_iff_exists_mem_beq]

theorem countP_beq_of_nodup {α γ : Type} [DecidableEq γ] (f : α → γ) (l : List α)
    (hn : (l.map f).Nodup) (y : γ) :
    l.countP (fun a => f a == y) = if y ∈ l.map f then 1 else 0 := by
  induction l with
  | nil => simp
  | cons a l ih =>
    simp only [List.map_cons, List.nodup_cons] at hn
    rw [List.countP_cons, List.map_cons, ih hn.2]
    by_cases hay : f a = y
    · have hnot : y ∉ l.map f := hay ▸ hn.1
      rw [if_neg hnot, if_pos (by simp [hay]), if_pos (List.mem_cons.2 (Or.inl hay.symm))]
    · rw [if_neg (show ¬((f a == y) = true) by simp [hay])]
      have hiff : (y ∈ f a :: l.map f) ↔ y ∈ l.map f := by
        rw [List.mem_cons]
        exact ⟨fun h => h.elim (fun h2 => absurd h2.symm hay) id, Or.inr⟩
      by_cases hy : y ∈ l.map f
      · rw [if_pos hy, if_pos (hiff.2 hy)]
      · rw [if_neg hy, if_neg (fun hcon => hy (hiff.1 hcon))]

/-- Matched entries and still-unclaimed entries together reference a key
exactly once, provided keys are globally unique on both sides. -/
theorem countP_matched_plus_leftover {α β γ : Type} [DecidableEq γ]
    (pairs : List α) (items : List β) (fp : α → γ) (fi : β → γ)
    (hnp : (pairs.map fp).Nodup) (hni : (items.map fi).Nodup)
    (y : γ) (hy : y ∈ items.map fi) :
    pairs.countP (fun a => fp a == y) +
      (items.filter (fun b => !(pairs.map fp).contains (fi b))).countP
        (fun b => fi b == y) = 1 := by
  rw [List.countP_filter, countP_beq_of_nodup fp pairs hnp y]
  by_cases hmem : y ∈ pairs.map fp
  · rw [if_pos hmem]
    have h0 : items.countP (fun b => (fi b == y) && !(pairs.map fp).contains (fi b)) = 0 := by
      rw [List.countP_eq_zero]
      intro b _
      simp only [Bool.and_eq_true, beq_iff_eq, Bool.not_eq_true', not_and]
      intro hby
      rw [← Bool.not_eq_true, not_not]
      rw [contains_iff_mem']
      rw [hby]
      exact hmem
    omega
  · rw [if_neg hmem]
    have hcongr : items.countP (fun b => (fi b == y) && !(pairs.map fp).contains (fi b)) =
        items.countP (fun b => fi b == y) := by
      apply List.countP_congr
      intro b _
      simp only [Bool.and_eq_true, beq_iff_eq, Bool.not_eq_true', and_iff_left_iff_imp]
      intro hby
      rw [← Bool.not_eq_true]
      intro hcon
      rw [contains_iff_mem'] at hcon
      rw [hby] at hcon
      exact hmem hcon
    rw [hcongr, countP_beq_of_nodup fi items hni y, if_pos hy]

/-- Claim C1 (amended): when catalog `doc_id`s are pairwise distinct, web
URLs pairwise distinct, and the matched pairs carry pairwise-distinct
catalog `doc_id`s and web URLs, the comparison table references every
catalog product in exactly one row and every web listing in exactly one
row. -/
theorem comparison_table_partitions (rag_results : List CatalogProduct)
    (web_results : List WebListing) (matched_pairs : List MatchedPair)
    (h1 : (rag_results.map (fun r => r.doc_id)).Nodup)
    (h2 : (web_results.map (fun w => w.url)).Nodup)
    (h4 : (matched_pairs.map (fun pair => pair.rag_product.doc_id)).Nodup)
    (h5 : (matched_pairs.map (fun pair => pair.web_product.url)).Nodup) :
    (∀ p ∈ rag_results,
      (create_comparison_table rag_results web_results matched_pairs).countP
        (fun row => row.catalog_id == some p.doc_id) = 1) ∧
    (∀ w ∈ web_results,
      (create_comparison_table rag_results web_results matched_pairs).countP
        (fun row => row.web_url == some w.url) = 1) := by
  constructor
  · intro p hp
    simp only [create_comparison_table, List.countP_append, List.countP_map]
    have hA : matched_pairs.countP
        ((fun row => row.catalog_id == some p.doc_id) ∘ matched_row) =
        matched_pairs.countP (fun pair => pair.rag_product.doc_id == p.doc_id) := by
      apply List.countP_congr
      intro pair _
      simp [matched_row, Function.comp]
    have hC : (web_results.filter
        (fun w => !(matched_pairs.map (fun pair => pair.web_product.url)).contains w.url)).countP
        ((fun row => row.catalog_id == some p.doc_id) ∘ web_only_row) = 0 := by
      rw [List.countP_eq_zero]
      intro w _
      simp [web_only_row, Function.comp]
    have hB : (rag_results.filter
        (fun r => !(matched_pairs.map (fun pair => pair.rag_product.doc_id)).contains
          r.doc_id)).countP
        ((fun row => row.catalog_id == some p.doc_id) ∘ catalog_only_row) =
        (rag_results.filter
          (fun r => !(matched_pairs.map (fun pair => pair.rag_product.doc_id)).contains
            r.doc_id)).countP (fun r => r.doc_id == p.doc_id) := by
      apply List.countP_congr
      intro r _
      simp [catalog_only_row, Function.comp]
    rw [hA, hC, hB]
    have := countP_matched_plus_leftover matched_pairs rag_results
      (fun pair => pair.rag_product.doc_id) (fun r => r.doc_id) h4 h1 p.doc_id
      (List.mem_map_of_mem _ hp)
    simp only [] at this
    omega
  · intro w hw
    simp only [create_comparison_table, List.countP_append, List.countP_map]
    have hA : matched_pairs.countP
        ((fun row => row.web_url == some w.url) ∘ matched_row) =
        matched_pairs.countP (fun pair => pair.web_product.url == w.url) := by
      apply List.countP_congr
      intro pair _
      simp [matched_row, Function.comp]
    have hB : (rag_results.filter
        (fun r => !(matched_pairs.map (fun pair => pair.rag_product.doc_id)).contains
          r.doc_id)).countP ((fun row => row.web_url == some w.url) ∘ catalog_only_row) = 0 := by
      rw [List.countP_eq_zero]
      intro r _
      simp [catalog_only_row, Function.comp]
    have hC : (web_results.filter
        (fun v => !(matched_pairs.map (fun pair => pair.web_product.url)).contains v.url)).countP
        ((fun row => row.web_url == some w.url) ∘ web_only_row) =
        (web_results.filter
          (fun v => !(matched_pairs.map (fun pair => pair.web_product.url)).contains
            v.url)).countP (fun v => v.url == w.url) := by
      apply List.countP_congr
      intro v _
      simp [web_only_row, Function.comp]
    rw [hA, hB, hC]
    have := countP_matched_plus_leftover matched_pairs web_results
      (fun pair => pair.web_product.url) (fun v => v.url) h5 h2 w.url
      (List.mem_map_of_mem _ hw)
    simp only [] at this
    omega

/-- Claim C1 witness: on distinct-id inputs with one matched pair, both
counting conclusions hold at the concrete members. -/
theorem comparison_table_partitions_witness :
    (create_comparison_table [abc_product_a, abc_product_b] [abc_listing]
      [abc_best.toPair]).countP
      (fun row => row.catalog_id == some abc_product_b.doc_id) = 1 ∧
    (create_comparison_table [abc_product_a, abc_product_b] [abc_listing]
      [abc_best.toPair]).countP
      (fun row => row.web_url == some abc_listing.url) = 1 :=
  ⟨(comparison_table_partitions [abc_product_a, abc_product_b] [abc_listing] [abc_best.toPair]
      (by decide) (by decide) (by decide) (by decide)).1 abc_product_b (by decide),
    (comparison_table_partitions [abc_product_a, abc_product_b] [abc_listing] [abc_best.toPair]
      (by decide) (by decide) (by decide) (by decide)).2 abc_listing (by decide)⟩

/-- Claim C1 counterexample: two catalog products share a `doc_id`; after
the first is matched, the second appears in no row at all (its unique
title occurs nowhere in the table), so the table does not partition the
catalog input. -/
theorem duplicate_doc_id_product_omitted :
    dup_p2 ∈ [dup_p1, dup_p2] ∧ dup_p2.title = "t2" ∧
      (create_comparison_table [dup_p1, dup_p2] [dup_w] [dup_pair]).countP
        (fun row => row.title == "t2") = 0 := by decide

end PipelineModel
